import Mathlib

/-!
Verification of the orchestration core of the kubefetch repository
(an Ansible-derived fleet-automation engine).

The development shallowly embeds, in Lean, the parts of the source that the
properties below are about:

* `lib/ansible/inventory/manager.py` — the host-pattern resolver
  (`order_patterns`, `InventoryManager._evaluate_patterns`,
  `_match_one_pattern`, `_split_subscript`, `_apply_subscript`,
  `get_hosts`, `clear_caches`);
* `lib/ansible/executor/task_result.py` — the `TaskResult` model
  (`is_skipped`, `is_failed`, `is_changed`, `is_unreachable`, `_check_key`);
* `lib/ansible/plugins/strategy/__init__.py` — the strategy base
  (`run` exit status, the failure branch of `_process_pending_results`,
  handler notification and `_do_handler_run`).

Host and Group objects live in `lib/ansible/inventory/data.py`, which is not
part of the sources; per the specification a host's identity is its unique
name, so hosts are represented throughout by their name strings.
-/

namespace Ansible

/-- Association-list lookup with Python `dict` semantics (first match wins;
the lists built by the operations below have unique keys). -/
def lookupA {β : Type} : List (String × β) → String → Option β
  | [], _ => none
  | (k, v) :: rest, key => if k = key then some v else lookupA rest key

/-- Models Python `str.startswith(c)` for a one-character prefix `c`
(the only form the pattern resolver uses). -/
def startsWith1 (s : String) (c : Char) : Bool :=
  match s.data with
  | [] => false
  | d :: _ => d = c

/-- Models the final duplicate-removal list comprehension of
`InventoryManager.get_hosts` (manager.py line 363-364):
`seen = set(); [x for x in hosts if x not in seen and not seen.add(x)]`.
Keeps the first occurrence of every name. `seen` is the set of names
already processed. -/
def dedupAux (seen : List String) : List String → List String
  | [] => []
  | x :: xs => if x ∈ seen then dedupAux seen xs else x :: dedupAux (x :: seen) xs

/-- Order-preserving first-occurrence deduplication (manager.py line 363-364). -/
def dedupFirst (l : List String) : List String :=
  dedupAux [] l

/-- Embedding of `order_patterns` (manager.py lines 49-71): regular terms
first, then `&`-intersection terms, then `!`-exclusion terms, with `all`
synthesized when no regular term exists.  Empty strings are dropped (the
`elif p:` truthiness test). -/
def order_patterns (patterns : List String) : List String :=
  let pattern_exclude := patterns.filter (fun p => startsWith1 p '!')
  let pattern_intersection :=
    patterns.filter (fun p => !startsWith1 p '!' && startsWith1 p '&')
  let pattern_regular :=
    patterns.filter (fun p => !startsWith1 p '!' && !startsWith1 p '&' && p ≠ "")
  (if pattern_regular = [] then ["all"] else pattern_regular)
    ++ pattern_intersection ++ pattern_exclude

/-- The inventory as the resolver sees it.  `hosts` is the (insertion-ordered)
list of names in `InventoryData.hosts`; `matchOne` abstracts the pure part of
`InventoryManager._match_one_pattern` applied to a term whose `&`/`!` prefix
has already been stripped (the `_split_subscript` / `_enumerate_matches` /
`_apply_subscript` pipeline of manager.py lines 446-453), whose result depends
only on the stripped term and the fixed inventory contents. -/
structure Inventory where
  hosts : List String
  matchOne : String → List String

/-- The prefix stripping of `_match_one_pattern` (manager.py lines 443-444):
`if pattern.startswith("&") or pattern.startswith("!"): pattern = pattern[1:]`. -/
def stripPrefix1 (p : String) : String :=
  if startsWith1 p '&' || startsWith1 p '!' then String.mk p.data.tail else p

/-- `_match_one_pattern` without its cache (manager.py lines 405-455):
strip one `&`/`!` prefix, then match the remaining term. -/
def match_one_pattern (inv : Inventory) (p : String) : List String :=
  inv.matchOne (stripPrefix1 p)

/-- The match list the resolver uses for a regular term: the exact-host
short-circuit of `_evaluate_patterns` (manager.py line 393) takes precedence
over `_match_one_pattern`. -/
def term_matches (inv : Inventory) (g : String) : List String :=
  if g ∈ inv.hosts then [g] else inv.matchOne g

/-- The term-processing loop of `_evaluate_patterns` (manager.py lines
391-403), one recursive step per ordered term.  `hosts` is the running
result list. -/
def eval_terms (inv : Inventory) : List String → List String → List String
  | [], hosts => hosts
  | p :: ps, hosts =>
    if p ∈ inv.hosts then
      eval_terms inv ps (hosts ++ [p])
    else
      let that := match_one_pattern inv p
      if startsWith1 p '!' then
        eval_terms inv ps (hosts.filter (fun h => decide (h ∉ that)))
      else if startsWith1 p '&' then
        eval_terms inv ps (hosts.filter (fun h => decide (h ∈ that)))
      else
        eval_terms inv ps (hosts ++ that.filter (fun h => decide (h ∉ hosts)))

/-- Embedding of `InventoryManager._evaluate_patterns` (manager.py lines
382-403). -/
def evaluate_patterns (inv : Inventory) (patterns : List String) : List String :=
  eval_terms inv (order_patterns patterns) []

/-- The cache-free core of `InventoryManager.get_hosts` (manager.py lines
329-380) for an already split pattern list, with no subset and no
restriction active and the default (inventory) order: evaluate the terms,
then deduplicate keeping first occurrences (line 363-364). -/
def get_hosts_pure (inv : Inventory) (patterns : List String) : List String :=
  dedupFirst (evaluate_patterns inv patterns)

theorem startsWith1_bang (g : String) : startsWith1 ("!" ++ g) '!' = true := by
  simp [startsWith1, String.data_append]

theorem startsWith1_bang_amp (g : String) : startsWith1 ("!" ++ g) '&' = false := by
  simp [startsWith1, String.data_append]

theorem startsWith1_amp_bang (g : String) : startsWith1 ("&" ++ g) '!' = false := by
  simp [startsWith1, String.data_append]

theorem startsWith1_amp (g : String) : startsWith1 ("&" ++ g) '&' = true := by
  simp [startsWith1, String.data_append]

theorem strip_bang (g : String) : stripPrefix1 ("!" ++ g) = g := by
  simp [stripPrefix1, startsWith1, String.data_append]

theorem strip_amp (g : String) : stripPrefix1 ("&" ++ g) = g := by
  simp [stripPrefix1, startsWith1, String.data_append]

theorem strip_plain (g : String) (hb : startsWith1 g '!' = false)
    (ha : startsWith1 g '&' = false) : stripPrefix1 g = g := by
  simp [stripPrefix1, hb, ha]

theorem bang_ne_empty (g : String) : ("!" ++ g) ≠ "" := by
  intro h
  have hd : ("!" ++ g).data = "".data := by rw [h]
  simp [String.data_append] at hd

theorem amp_ne_empty (g : String) : ("&" ++ g) ≠ "" := by
  intro h
  have hd : ("&" ++ g).data = "".data := by rw [h]
  simp [String.data_append] at hd

theorem dedupAux_congr_seen (l : List String) : ∀ seen₁ seen₂ : List String,
    (∀ y ∈ l, (y ∈ seen₁ ↔ y ∈ seen₂)) → dedupAux seen₁ l = dedupAux seen₂ l := by
  induction l with
  | nil => intro _ _ _; rfl
  | cons x xs ih =>
    intro seen₁ seen₂ hmem
    have hx := hmem x (List.mem_cons_self x xs)
    by_cases h1 : x ∈ seen₁
    · have h2 : x ∈ seen₂ := hx.mp h1
      simp only [dedupAux, if_pos h1, if_pos h2]
      exact ih seen₁ seen₂ (fun y hy => hmem y (List.mem_cons_of_mem x hy))
    · have h2 : x ∉ seen₂ := fun h => h1 (hx.mpr h)
      simp only [dedupAux, if_neg h1, if_neg h2]
      refine congrArg _ (ih (x :: seen₁) (x :: seen₂) ?_)
      intro y hy
      simp only [List.mem_cons]
      rcases hmem y (List.mem_cons_of_mem x hy) with h
      constructor
      · rintro (rfl | hm)
        · exact Or.inl rfl
        · exact Or.inr (h.mp hm)
      · rintro (rfl | hm)
        · exact Or.inl rfl
        · exact Or.inr (h.mpr hm)

theorem dedupAux_filter (p : String → Bool) (l : List String) : ∀ seen : List String,
    dedupAux seen (l.filter p) = (dedupAux seen l).filter p := by
  induction l with
  | nil => intro _; rfl
  | cons x xs ih =>
    intro seen
    by_cases hp : p x
    · rw [List.filter_cons_of_pos hp]
      by_cases hs : x ∈ seen
      · simp only [dedupAux, if_pos hs]
        exact ih seen
      · simp only [dedupAux, if_neg hs, List.filter_cons_of_pos hp]
        exact congrArg _ (ih (x :: seen))
    · rw [List.filter_cons_of_neg (by simpa using hp)]
      by_cases hs : x ∈ seen
      · simp only [dedupAux, if_pos hs]
        exact ih seen
      · simp only [dedupAux, if_neg hs, List.filter_cons_of_neg (by simpa using hp)]
        rw [← ih (x :: seen)]
        refine dedupAux_congr_seen (xs.filter p) seen (x :: seen) ?_
        intro y hy
        have hpy : p y := List.of_mem_filter hy
        have hyx : y ≠ x := by
          intro h
          rw [h] at hpy
          exact hp hpy
        simp [List.mem_cons, hyx]

theorem dedupFirst_filter (p : String → Bool) (l : List String) :
    dedupFirst (l.filter p) = (dedupFirst l).filter p :=
  dedupAux_filter p l []

theorem dedupAux_union (A₀ : List String) (B : List String) : ∀ seen : List String,
    (∀ b ∈ B, b ∈ A₀ → b ∈ seen) →
    dedupAux seen (B.filter (fun b => decide (b ∉ A₀))) = dedupAux seen B := by
  induction B with
  | nil => intro _ _; rfl
  | cons b B' ih =>
    intro seen hcov
    by_cases hbA : b ∈ A₀
    · have hbs : b ∈ seen := hcov b (List.mem_cons_self b B') hbA
      rw [List.filter_cons_of_neg (by simpa using hbA)]
      simp only [dedupAux, if_pos hbs]
      exact ih seen (fun y hy => hcov y (List.mem_cons_of_mem b hy))
    · rw [List.filter_cons_of_pos (by simpa using hbA)]
      by_cases hbs : b ∈ seen
      · simp only [dedupAux, if_pos hbs]
        exact ih seen (fun y hy => hcov y (List.mem_cons_of_mem b hy))
      · simp only [dedupAux, if_neg hbs]
        refine congrArg _ (ih (b :: seen) ?_)
        intro y hy hyA
        exact List.mem_cons_of_mem b (hcov y (List.mem_cons_of_mem b hy) hyA)

theorem dedupAux_append_union (A₀ B : List String) : ∀ (A seen : List String),
    (∀ b ∈ B, b ∈ A₀ → b ∈ seen ∨ b ∈ A) →
    dedupAux seen (A ++ B.filter (fun b => decide (b ∉ A₀))) =
      dedupAux seen (A ++ B) := by
  intro A
  induction A with
  | nil =>
    intro seen hcov
    refine dedupAux_union A₀ B seen ?_
    intro b hb hbA
    rcases hcov b hb hbA with h | h
    · exact h
    · exact absurd h (List.not_mem_nil b)
  | cons x A' ih =>
    intro seen hcov
    by_cases hxs : x ∈ seen
    · simp only [List.cons_append, dedupAux, if_pos hxs]
      refine ih seen ?_
      intro b hb hbA
      rcases hcov b hb hbA with h | h
      · exact Or.inl h
      · rcases List.mem_cons.mp h with rfl | h'
        · exact Or.inl hxs
        · exact Or.inr h'
    · simp only [List.cons_append, dedupAux, if_neg hxs]
      refine congrArg _ (ih (x :: seen) ?_)
      intro b hb hbA
      rcases hcov b hb hbA with h | h
      · exact Or.inl (List.mem_cons_of_mem x h)
      · rcases List.mem_cons.mp h with rfl | h'
        · exact Or.inl (List.mem_cons_self b seen)
        · exact Or.inr h'

theorem dedupFirst_append_union (A B : List String) :
    dedupFirst (A ++ B.filter (fun b => decide (b ∉ A))) = dedupFirst (A ++ B) := by
  refine dedupAux_append_union A B A [] ?_
  intro b _ hbA
  exact Or.inr hbA

theorem eval_terms_first_regular (inv : Inventory) (g : String) (ps : List String)
    (hb : startsWith1 g '!' = false) (ha : startsWith1 g '&' = false) :
    eval_terms inv (g :: ps) [] = eval_terms inv ps (term_matches inv g) := by
  by_cases hm : g ∈ inv.hosts
  · simp [eval_terms, term_matches, hm]
  · simp [eval_terms, term_matches, match_one_pattern, strip_plain g hb ha, hm, hb, ha]

theorem eval_terms_excl (inv : Inventory) (g : String) (A : List String)
    (hne : ("!" ++ g) ∉ inv.hosts) :
    eval_terms inv ["!" ++ g] A = A.filter (fun h => decide (h ∉ inv.matchOne g)) := by
  simp [eval_terms, match_one_pattern, hne, startsWith1_bang, strip_bang]

theorem eval_terms_inter (inv : Inventory) (g : String) (A : List String)
    (hne : ("&" ++ g) ∉ inv.hosts) :
    eval_terms inv ["&" ++ g] A = A.filter (fun h => decide (h ∈ inv.matchOne g)) := by
  simp [eval_terms, match_one_pattern, hne, startsWith1_amp, startsWith1_amp_bang, strip_amp]

theorem eval_terms_last_regular (inv : Inventory) (g : String) (A : List String)
    (hb : startsWith1 g '!' = false) (ha : startsWith1 g '&' = false)
    (hm : g ∉ inv.hosts) :
    eval_terms inv [g] A = A ++ (inv.matchOne g).filter (fun h => decide (h ∉ A)) := by
  simp [eval_terms, match_one_pattern, strip_plain g hb ha, hm, hb, ha]

/-- C1: for every inventory and regular (unprefixed, non-empty) terms `g1`,
`g2` with match lists `A = term_matches inv g1` and `B = term_matches inv g2`
(where `g2` is not itself a literal host name, so that its match list is
well defined independently of position), resolving `g1,g2` yields `A ∪ B` in
first-seen order with duplicates removed, resolving `g1,!g2` yields `A − B`,
resolving `g1,&g2` yields `A ∩ B`, the result does not depend on where the
`&`/`!` term appears in the input, and `order_patterns` synthesizes the term
`all` when only a prefixed term is given. -/
theorem c1_pattern_algebra (inv : Inventory) (g1 g2 : String)
    (hb1 : startsWith1 g1 '!' = false) (ha1 : startsWith1 g1 '&' = false)
    (hn1 : g1 ≠ "")
    (hb2 : startsWith1 g2 '!' = false) (ha2 : startsWith1 g2 '&' = false)
    (hn2 : g2 ≠ "")
    (hg2 : g2 ∉ inv.hosts)
    (hxb : ("!" ++ g2) ∉ inv.hosts) (hxa : ("&" ++ g2) ∉ inv.hosts) :
    get_hosts_pure inv [g1, g2] =
      dedupFirst (term_matches inv g1 ++ term_matches inv g2)
    ∧ get_hosts_pure inv [g1, "!" ++ g2] =
      (dedupFirst (term_matches inv g1)).filter
        (fun h => decide (h ∉ term_matches inv g2))
    ∧ get_hosts_pure inv [g1, "&" ++ g2] =
      (dedupFirst (term_matches inv g1)).filter
        (fun h => decide (h ∈ term_matches inv g2))
    ∧ get_hosts_pure inv ["!" ++ g2, g1] = get_hosts_pure inv [g1, "!" ++ g2]
    ∧ get_hosts_pure inv ["&" ++ g2, g1] = get_hosts_pure inv [g1, "&" ++ g2]
    ∧ order_patterns ["!" ++ g2] = ["all", "!" ++ g2]
    ∧ order_patterns ["&" ++ g2] = ["all", "&" ++ g2] := by
  have hTM2 : term_matches inv g2 = inv.matchOne g2 := by
    simp [term_matches, hg2]
  have hordUU : order_patterns [g1, g2] = [g1, g2] := by
    simp [order_patterns, List.filter, hb1, ha1, hn1, hb2, ha2, hn2]
  have hordUE : order_patterns [g1, "!" ++ g2] = [g1, "!" ++ g2] := by
    simp [order_patterns, List.filter, hb1, ha1, hn1,
      startsWith1_bang, startsWith1_bang_amp]
  have hordEU : order_patterns ["!" ++ g2, g1] = [g1, "!" ++ g2] := by
    simp [order_patterns, List.filter, hb1, ha1, hn1,
      startsWith1_bang, startsWith1_bang_amp]
  have hordUI : order_patterns [g1, "&" ++ g2] = [g1, "&" ++ g2] := by
    simp [order_patterns, List.filter, hb1, ha1, hn1,
      startsWith1_amp, startsWith1_amp_bang]
  have hordIU : order_patterns ["&" ++ g2, g1] = [g1, "&" ++ g2] := by
    simp [order_patterns, List.filter, hb1, ha1, hn1,
      startsWith1_amp, startsWith1_amp_bang]
  refine ⟨?_, ?_, ?_, ?_, ?_, ?_, ?_⟩
  · unfold get_hosts_pure evaluate_patterns
    rw [hordUU, eval_terms_first_regular inv g1 [g2] hb1 ha1,
      eval_terms_last_regular inv g2 _ hb2 ha2 hg2, hTM2,
      dedupFirst_append_union]
  · unfold get_hosts_pure evaluate_patterns
    rw [hordUE, eval_terms_first_regular inv g1 _ hb1 ha1,
      eval_terms_excl inv g2 _ hxb, hTM2, dedupFirst_filter]
  · unfold get_hosts_pure evaluate_patterns
    rw [hordUI, eval_terms_first_regular inv g1 _ hb1 ha1,
      eval_terms_inter inv g2 _ hxa, hTM2, dedupFirst_filter]
  · unfold get_hosts_pure evaluate_patterns
    rw [hordEU, hordUE]
  · unfold get_hosts_pure evaluate_patterns
    rw [hordIU, hordUI]
  · simp [order_patterns, List.filter, startsWith1_bang, startsWith1_bang_amp]
  · simp [order_patterns, List.filter, startsWith1_amp, startsWith1_amp_bang]

/-- A concrete inventory for exercising `c1_pattern_algebra`: hosts a, b, c;
the term g1 matches [a, b] and the term g2 matches [b, c]. -/
def invC1 : Inventory :=
  ⟨["a", "b", "c"],
   fun g => if g = "g1" then ["a", "b"] else if g = "g2" then ["b", "c"] else []⟩

/-- Witness for C1 at a concrete inventory: instantiates every hypothesis of
`c1_pattern_algebra` and records its conclusion for `invC1`. -/
theorem c1_pattern_algebra_witness :
    ("g2" ∉ invC1.hosts)
    ∧ (get_hosts_pure invC1 ["g1", "g2"] =
        dedupFirst (term_matches invC1 "g1" ++ term_matches invC1 "g2")
      ∧ get_hosts_pure invC1 ["g1", "!" ++ "g2"] =
        (dedupFirst (term_matches invC1 "g1")).filter
          (fun h => decide (h ∉ term_matches invC1 "g2"))
      ∧ get_hosts_pure invC1 ["g1", "&" ++ "g2"] =
        (dedupFirst (term_matches invC1 "g1")).filter
          (fun h => decide (h ∈ term_matches invC1 "g2"))
      ∧ get_hosts_pure invC1 ["!" ++ "g2", "g1"] =
          get_hosts_pure invC1 ["g1", "!" ++ "g2"]
      ∧ get_hosts_pure invC1 ["&" ++ "g2", "g1"] =
          get_hosts_pure invC1 ["g1", "&" ++ "g2"]
      ∧ order_patterns ["!" ++ "g2"] = ["all", "!" ++ "g2"]
      ∧ order_patterns ["&" ++ "g2"] = ["all", "&" ++ "g2"]) :=
  ⟨by decide,
   c1_pattern_algebra invC1 "g1" "g2" (by decide) (by decide) (by decide)
     (by decide) (by decide) (by decide) (by decide) (by decide) (by decide)⟩

/-- C5: a pattern term that is exactly the name of an existing host resolves
to that host alone; the glob/group matcher (the `matchOne` function `f`,
which is arbitrary here) is never consulted, so no group or other host that
the term would match as a wildcard is added. -/
theorem c5_exact_host_short_circuit (hosts : List String)
    (f : String → List String) (g : String)
    (hmem : g ∈ hosts)
    (hb : startsWith1 g '!' = false) (ha : startsWith1 g '&' = false)
    (hn : g ≠ "") :
    get_hosts_pure ⟨hosts, f⟩ [g] = [g]
    ∧ evaluate_patterns ⟨hosts, f⟩ [g] = [g] := by
  have hord : order_patterns [g] = [g] := by
    simp [order_patterns, List.filter, hb, ha, hn]
  have heval : evaluate_patterns ⟨hosts, f⟩ [g] = [g] := by
    unfold evaluate_patterns
    rw [hord]
    simp [eval_terms, hmem]
  refine ⟨?_, heval⟩
  unfold get_hosts_pure
  rw [heval]
  rfl

/-- Witness for C5: a host literally named `web*` exists next to a host
`web1`; the matcher `f` simulates the glob matching both, yet the pattern
`web*` resolves to the exact host only. -/
theorem c5_exact_host_short_circuit_witness :
    ("web*" ∈ ["web*", "web1"])
    ∧ (get_hosts_pure ⟨["web*", "web1"], fun _ => ["web*", "web1"]⟩ ["web*"] = ["web*"]
      ∧ evaluate_patterns ⟨["web*", "web1"], fun _ => ["web*", "web1"]⟩ ["web*"] = ["web*"]) :=
  ⟨by decide,
   c5_exact_host_short_circuit ["web*", "web1"] (fun _ => ["web*", "web1"]) "web*"
     (by decide) (by decide) (by decide) (by decide)⟩

/-- The mutable resolver state of `InventoryManager`: its two caches,
`_hosts_patterns_cache` (resolved full patterns) and `_pattern_cache`
(resolved individual terms), manager.py lines 131-133. -/
structure MState where
  hosts_patterns_cache : List (String × List String)
  pattern_cache : List (String × List String)

/-- `InventoryManager.clear_caches` (manager.py lines 299-303): both caches
are reset to empty dicts. -/
def clear_caches (_st : MState) : MState :=
  ⟨[], []⟩

/-- `_match_one_pattern` with its `_pattern_cache` (manager.py lines
443-455): the cache key is the term with its `&`/`!` prefix stripped. -/
def match_one_pattern_st (inv : Inventory) (st : MState) (p : String) :
    List String × MState :=
  let key := stripPrefix1 p
  match lookupA st.pattern_cache key with
  | some v => (v, st)
  | none =>
    let v := inv.matchOne key
    (v, { st with pattern_cache := st.pattern_cache ++ [(key, v)] })

/-- The `_evaluate_patterns` loop threading the per-term cache state. -/
def eval_terms_st (inv : Inventory) :
    List String → List String → MState → List String × MState
  | [], hosts, st => (hosts, st)
  | p :: ps, hosts, st =>
    if p ∈ inv.hosts then
      eval_terms_st inv ps (hosts ++ [p]) st
    else
      let r := match_one_pattern_st inv st p
      if startsWith1 p '!' then
        eval_terms_st inv ps (hosts.filter (fun h => decide (h ∉ r.1))) r.2
      else if startsWith1 p '&' then
        eval_terms_st inv ps (hosts.filter (fun h => decide (h ∈ r.1))) r.2
      else
        eval_terms_st inv ps (hosts ++ r.1.filter (fun h => decide (h ∉ hosts))) r.2

/-- The non-shuffle orders accepted by `get_hosts` (manager.py lines
366-378). -/
inductive HostOrder
  | inventory
  | sorted
  | reverse_sorted
  | reverse_inventory

/-- Insert a name into a name-sorted list. -/
def insertSorted (x : String) : List String → List String
  | [] => [x]
  | y :: ys => if x ≤ y then x :: y :: ys else y :: insertSorted x ys

/-- Sorting by host name, as `sorted(..., key=attrgetter('name'))` does
(manager.py line 369). -/
def sortByName : List String → List String
  | [] => []
  | x :: xs => insertSorted x (sortByName xs)

/-- Modelled from the spec: the `reverse_inventory` order calls
`sorted(..., reverse=True)` on Host objects, whose comparison lives in
`inventory/data.py`, absent from the sources; the spec defines this order
as "reverse_inventory (reverse of resolution order)". -/
def reverse_inventory_order (l : List String) : List String :=
  l.reverse

/-- The ordering applied by `get_hosts` to the cached resolution (manager.py
lines 366-378). -/
def applyOrder : HostOrder → List String → List String
  | .inventory, l => l
  | .sorted, l => sortByName l
  | .reverse_sorted, l => (sortByName l).reverse
  | .reverse_inventory, l => reverse_inventory_order l

/-- `InventoryManager.get_hosts` (manager.py lines 329-380) for a split
pattern list with no subset and no restriction active: the cache key is the
`":".join` of the pattern list (line 338); on a miss the patterns are
evaluated and the deduplicated result stored (lines 348-364); the requested
order is applied to the cached list (lines 366-378). -/
def get_hosts_st (inv : Inventory) (patterns : List String) (ord : HostOrder)
    (st : MState) : List String × MState :=
  let pattern_hash := String.intercalate ":" patterns
  match lookupA st.hosts_patterns_cache pattern_hash with
  | some cached => (applyOrder ord cached, st)
  | none =>
    let r := eval_terms_st inv (order_patterns patterns) [] st
    let deduped := dedupFirst r.1
    (applyOrder ord deduped,
     { r.2 with
        hosts_patterns_cache :=
          r.2.hosts_patterns_cache ++ [(pattern_hash, deduped)] })

/-- Every `_pattern_cache` entry holds exactly what `_match_one_pattern`
would compute fresh for its key. -/
def PatternCacheOk (inv : Inventory) (st : MState) : Prop :=
  ∀ k v, lookupA st.pattern_cache k = some v → v = inv.matchOne k

/-- The `_hosts_patterns_cache` entry for the given pattern list, when
present, holds exactly the fresh resolution of those patterns. -/
def HostsCacheOkFor (inv : Inventory) (st : MState) (patterns : List String) : Prop :=
  ∀ v, lookupA st.hosts_patterns_cache (String.intercalate ":" patterns) = some v →
    v = get_hosts_pure inv patterns

theorem lookupA_append {β : Type} (l : List (String × β)) (k key : String) (v : β) :
    lookupA (l ++ [(k, v)]) key =
      match lookupA l key with
      | some w => some w
      | none => if k = key then some v else none := by
  induction l with
  | nil => rfl
  | cons e rest ih =>
    obtain ⟨k', v'⟩ := e
    by_cases h : k' = key
    · simp [lookupA, h]
    · simp only [List.cons_append, lookupA, if_neg h]
      exact ih

theorem match_one_pattern_st_spec (inv : Inventory) (st : MState) (p : String)
    (hpc : PatternCacheOk inv st) :
    (match_one_pattern_st inv st p).1 = match_one_pattern inv p
    ∧ PatternCacheOk inv (match_one_pattern_st inv st p).2
    ∧ (match_one_pattern_st inv st p).2.hosts_patterns_cache
        = st.hosts_patterns_cache := by
  unfold match_one_pattern_st match_one_pattern
  cases hcase : lookupA st.pattern_cache (stripPrefix1 p) with
  | some v =>
    simp only [hcase]
    exact ⟨hpc _ v hcase, hpc, trivial⟩
  | none =>
    simp only [hcase]
    refine ⟨trivial, ?_, trivial⟩
    intro k' v' h
    rw [lookupA_append] at h
    cases hold : lookupA st.pattern_cache k' with
    | some w =>
      rw [hold] at h
      exact hpc k' v' (hold.trans (by injection h; simp [*]))
    | none =>
      rw [hold] at h
      by_cases hk : stripPrefix1 p = k'
      · rw [if_pos hk] at h
        injection h with h
        rw [← h, hk]
      · rw [if_neg hk] at h
        exact absurd h (by simp)

theorem eval_terms_st_spec (inv : Inventory) (l : List String) :
    ∀ (hosts : List String) (st : MState), PatternCacheOk inv st →
    (eval_terms_st inv l hosts st).1 = eval_terms inv l hosts
    ∧ PatternCacheOk inv (eval_terms_st inv l hosts st).2
    ∧ (eval_terms_st inv l hosts st).2.hosts_patterns_cache
        = st.hosts_patterns_cache := by
  induction l with
  | nil => intro hosts st hpc; exact ⟨rfl, hpc, rfl⟩
  | cons p ps ih =>
    intro hosts st hpc
    obtain ⟨hval, hok, hkeep⟩ := match_one_pattern_st_spec inv st p hpc
    by_cases hm : p ∈ inv.hosts
    · simp only [eval_terms_st, eval_terms, if_pos hm]
      exact ih (hosts ++ [p]) st hpc
    · cases hbang : startsWith1 p '!' with
      | true =>
        have e1 : eval_terms_st inv (p :: ps) hosts st =
            eval_terms_st inv ps
              (hosts.filter (fun h => decide (h ∉ (match_one_pattern_st inv st p).1)))
              (match_one_pattern_st inv st p).2 := by
          simp [eval_terms_st, hm, hbang]
        have e2 : eval_terms inv (p :: ps) hosts =
            eval_terms inv ps
              (hosts.filter (fun h => decide (h ∉ match_one_pattern inv p))) := by
          simp [eval_terms, hm, hbang]
        rw [e1, e2, hval]
        obtain ⟨h1, h2, h3⟩ :=
          ih (hosts.filter (fun h => decide (h ∉ match_one_pattern inv p)))
            (match_one_pattern_st inv st p).2 hok
        exact ⟨h1, h2, h3.trans hkeep⟩
      | false =>
        cases hamp : startsWith1 p '&' with
        | true =>
          have e1 : eval_terms_st inv (p :: ps) hosts st =
              eval_terms_st inv ps
                (hosts.filter (fun h => decide (h ∈ (match_one_pattern_st inv st p).1)))
                (match_one_pattern_st inv st p).2 := by
            simp [eval_terms_st, hm, hbang, hamp]
          have e2 : eval_terms inv (p :: ps) hosts =
              eval_terms inv ps
                (hosts.filter (fun h => decide (h ∈ match_one_pattern inv p))) := by
            simp [eval_terms, hm, hbang, hamp]
          rw [e1, e2, hval]
          obtain ⟨h1, h2, h3⟩ :=
            ih (hosts.filter (fun h => decide (h ∈ match_one_pattern inv p)))
              (match_one_pattern_st inv st p).2 hok
          exact ⟨h1, h2, h3.trans hkeep⟩
        | false =>
          have e1 : eval_terms_st inv (p :: ps) hosts st =
              eval_terms_st inv ps
                (hosts ++ (match_one_pattern_st inv st p).1.filter
                  (fun h => decide (h ∉ hosts)))
                (match_one_pattern_st inv st p).2 := by
            simp [eval_terms_st, hm, hbang, hamp]
          have e2 : eval_terms inv (p :: ps) hosts =
              eval_terms inv ps
                (hosts ++ (match_one_pattern inv p).filter
                  (fun h => decide (h ∉ hosts))) := by
            simp [eval_terms, hm, hbang, hamp]
          rw [e1, e2, hval]
          obtain ⟨h1, h2, h3⟩ :=
            ih (hosts ++ (match_one_pattern inv p).filter (fun h => decide (h ∉ hosts)))
              (match_one_pattern_st inv st p).2 hok
          exact ⟨h1, h2, h3.trans hkeep⟩

theorem get_hosts_st_spec (inv : Inventory) (pats : List String) (ord : HostOrder)
    (st : MState) (hpc : PatternCacheOk inv st)
    (hhc : HostsCacheOkFor inv st pats) :
    (get_hosts_st inv pats ord st).1 = applyOrder ord (get_hosts_pure inv pats)
    ∧ PatternCacheOk inv (get_hosts_st inv pats ord st).2
    ∧ HostsCacheOkFor inv (get_hosts_st inv pats ord st).2 pats := by
  unfold get_hosts_st
  cases hcase : lookupA st.hosts_patterns_cache (String.intercalate ":" pats) with
  | some cached =>
    simp only [hcase]
    exact ⟨congrArg _ (hhc cached hcase), hpc, hhc⟩
  | none =>
    simp only [hcase]
    obtain ⟨hval, hok, hkeep⟩ := eval_terms_st_spec inv (order_patterns pats) [] st hpc
    have hded : dedupFirst (eval_terms_st inv (order_patterns pats) [] st).1
        = get_hosts_pure inv pats := by
      rw [hval]; rfl
    refine ⟨by rw [hded], hok, ?_⟩
    intro v h
    simp only at h
    rw [lookupA_append, hkeep, hcase] at h
    rw [if_pos rfl] at h
    injection h with h
    rw [← h, hded]

theorem empty_pattern_cache_ok (inv : Inventory) : PatternCacheOk inv ⟨[], []⟩ := by
  intro k v h
  simp [lookupA] at h

theorem empty_hosts_cache_ok (inv : Inventory) (pats : List String) :
    HostsCacheOkFor inv ⟨[], []⟩ pats := by
  intro v h
  simp [lookupA] at h

/-- C8: with consistent caches (in particular, fresh or just-cleared ones),
`get_hosts` is a pure function of the inventory and the pattern: the first
call returns the orderless resolution with the requested order applied, a
second identical call returns the identical list, and clearing both caches
and resolving once more returns that same list again. -/
theorem c8_cache_pure_memoization (inv : Inventory) (pats : List String)
    (ord : HostOrder) (st : MState)
    (hpc : PatternCacheOk inv st) (hhc : HostsCacheOkFor inv st pats) :
    (get_hosts_st inv pats ord st).1 = applyOrder ord (get_hosts_pure inv pats)
    ∧ (get_hosts_st inv pats ord (get_hosts_st inv pats ord st).2).1
        = (get_hosts_st inv pats ord st).1
    ∧ (get_hosts_st inv pats ord
        (clear_caches (get_hosts_st inv pats ord (get_hosts_st inv pats ord st).2).2)).1
        = (get_hosts_st inv pats ord st).1 := by
  obtain ⟨h1, hpc1, hhc1⟩ := get_hosts_st_spec inv pats ord st hpc hhc
  obtain ⟨h2, _, _⟩ :=
    get_hosts_st_spec inv pats ord (get_hosts_st inv pats ord st).2 hpc1 hhc1
  obtain ⟨h3, _, _⟩ :=
    get_hosts_st_spec inv pats ord
      (clear_caches (get_hosts_st inv pats ord (get_hosts_st inv pats ord st).2).2)
      (empty_pattern_cache_ok inv) (empty_hosts_cache_ok inv pats)
  exact ⟨h1, h2.trans h1.symm, h3.trans h1.symm⟩

/-- A concrete inventory for exercising `c8_cache_pure_memoization`. -/
def invC8 : Inventory :=
  ⟨["db1", "db2", "web1"],
   fun g => if g = "db" then ["db1", "db2"] else if g = "web" then ["web1"] else []⟩

/-- Witness for C8: starting from empty caches, resolving `db,!web` three
times — twice in sequence, then once more after `clear_caches` — returns the
pure resolution every time. -/
theorem c8_cache_pure_memoization_witness :
    (get_hosts_st invC8 ["db", "!web"] HostOrder.inventory ⟨[], []⟩).1
      = applyOrder HostOrder.inventory (get_hosts_pure invC8 ["db", "!web"])
    ∧ (get_hosts_st invC8 ["db", "!web"] HostOrder.inventory
        (get_hosts_st invC8 ["db", "!web"] HostOrder.inventory ⟨[], []⟩).2).1
      = (get_hosts_st invC8 ["db", "!web"] HostOrder.inventory ⟨[], []⟩).1
    ∧ (get_hosts_st invC8 ["db", "!web"] HostOrder.inventory
        (clear_caches (get_hosts_st invC8 ["db", "!web"] HostOrder.inventory
          (get_hosts_st invC8 ["db", "!web"] HostOrder.inventory ⟨[], []⟩).2).2)).1
      = (get_hosts_st invC8 ["db", "!web"] HostOrder.inventory ⟨[], []⟩).1 :=
  c8_cache_pure_memoization invC8 ["db", "!web"] HostOrder.inventory ⟨[], []⟩
    (empty_pattern_cache_ok invC8) (empty_hosts_cache_ok invC8 ["db", "!web"])

/-- Numeric value of a digit string, as Python `int()` computes it for a
`[0-9]+` match. -/
def digitsToNat (ds : List Char) : Nat :=
  ds.foldl (fun acc c => 10 * acc + (c.toNat - '0'.toNat)) 0

/-- The `(-?[0-9]+)` single-index alternative of the subscript regex of
`_split_subscript` (manager.py lines 475-485): an optional leading minus
followed by one or more digits. -/
def parse_single_index (body : List Char) : Option Int :=
  match body with
  | '-' :: rest =>
    if rest ≠ [] ∧ rest.all Char.isDigit then some (-(digitsToNat rest : Int))
    else none
  | _ =>
    if body ≠ [] ∧ body.all Char.isDigit then some ((digitsToNat body : Int))
    else none

/-- The `([0-9]+)([:-])([0-9]*)` range alternative of the subscript regex
(manager.py lines 475-485): digits, then `:` (or the removed `-` form),
then optional digits; an empty end becomes `-1`, "to the end" (lines
494-496). -/
def parse_range_subscript (body : List Char) : Option (Int × Option Int) :=
  let start := body.takeWhile Char.isDigit
  match body.dropWhile Char.isDigit with
  | sep :: rest =>
    if start ≠ [] ∧ (sep = ':' ∨ sep = '-') ∧ rest.all Char.isDigit then
      some ((digitsToNat start : Int),
        some (if rest = [] then (-1 : Int) else (digitsToNat rest : Int)))
    else none
  | [] => none

/-- The full `[subscript]` body: the regex alternation tries the single
index first; the two alternatives accept disjoint bodies. -/
def parse_subscript_body (body : List Char) : Option (Int × Option Int) :=
  match parse_single_index body with
  | some i => some (i, none)
  | none => parse_range_subscript body

/-- Embedding of `InventoryManager._split_subscript` (manager.py lines
457-500).  The anchored regex `^(.+)\[...\]$` with a greedy `(.+)` splits
the term at its last `[` (an earlier `[` would leave a later `[` inside the
bracket body, which only admits digits, `:` and `-`); the bracket body must
parse, the closing `]` must be the final character, and the part before the
`[` must be non-empty.  `~`-regex terms are never parsed for subscripts
(lines 467-469).  When the regex does not match, the term is returned
unchanged with no subscript. -/
def _split_subscript (pattern : String) : String × Option (Int × Option Int) :=
  if startsWith1 pattern '~' then (pattern, none)
  else
    match pattern.data.reverse with
    | ']' :: rev =>
      match rev.dropWhile (fun c => c ≠ '[') with
      | '[' :: preRev =>
        if preRev ≠ [] then
          match parse_subscript_body (rev.takeWhile (fun c => c ≠ '[')).reverse with
          | some sub => (String.mk preRev.reverse, some sub)
          | none => (pattern, none)
        else (pattern, none)
      | _ => (pattern, none)
    | _ => (pattern, none)

/-- Python list indexing `hosts[i]` with negative-index support; `none`
models an `IndexError`. -/
def pyIndex (l : List String) (i : Int) : Option String :=
  if 0 ≤ i then l.get? i.toNat
  else if 0 ≤ i + l.length then l.get? (i + l.length).toNat
  else none

/-- Normalization of one Python slice bound against a list of length `n`:
negative bounds count from the end, and all bounds are clamped to `[0, n]`. -/
def pyBound (n : Nat) (a : Int) : Int :=
  if a < 0 then max ((n : Int) + a) 0 else min a (n : Int)

/-- Python slicing `l[a:b]`: negative bounds count from the end,
out-of-range bounds are clamped, and no error is ever raised. -/
def pySlice (l : List String) (a b : Int) : List String :=
  (l.drop (pyBound l.length a).toNat).take (pyBound l.length b - pyBound l.length a).toNat

/-- Embedding of `InventoryManager._apply_subscript` (manager.py lines
502-518); `none` is the propagated `IndexError`.  Note the Python
truthiness test `if end:`: an end of `0` falls into the single-index
branch, and `end == -1` is first rewritten to the last index. -/
def _apply_subscript (hosts : List String)
    (subscript : Option (Int × Option Int)) : Option (List String) :=
  match subscript with
  | none => some hosts
  | some (start, stop) =>
    if hosts = [] then some hosts
    else
      match stop with
      | some e =>
        if e ≠ 0 then
          some (pySlice hosts start
            ((if e = -1 then (hosts.length : Int) - 1 else e) + 1))
        else
          match pyIndex hosts start with
          | some h => some [h]
          | none => none
      | none =>
        match pyIndex hosts start with
        | some h => some [h]
        | none => none

/-- The subscript application step of `_match_one_pattern` (manager.py
lines 446-452): an `IndexError` from `_apply_subscript` becomes the fatal
`AnsibleError("No hosts matched the subscripted pattern '%s'")`. -/
def match_one_pattern_sub (pattern : String) (hosts : List String)
    (subscript : Option (Int × Option Int)) : Except String (List String) :=
  match _apply_subscript hosts subscript with
  | some r => Except.ok r
  | none =>
    Except.error ("No hosts matched the subscripted pattern '" ++ pattern ++ "'")

/-- C6 counterexample: the term `db[-1]` is not rejected — `_split_subscript`
parses it successfully as the single index `-1` (the regex alternative
`(-?[0-9]+)` admits a leading minus), and applying that subscript to a
matched list selects its last element with no error of any kind. -/
theorem c6_counterexample :
    _split_subscript "db[-1]" = ("db", some (-1, none))
    ∧ match_one_pattern_sub "db[-1]" ["db1", "db2", "db3"] (some (-1, none))
        = Except.ok ["db3"] :=
  ⟨rfl, rfl⟩

/-- C6 (amended): a single negative index such as `db[-1]` is accepted by
the subscript syntax and selects from the end of the matched host list
(Python negative indexing); the accepted subscript forms are single indices
`-?[0-9]+` and ranges `x:y`, `x:`, `x-y` with non-negative bounds. -/
theorem c6_amended_negative_single_index (pat : String) (hosts : List String)
    (i : Int) (h : String) (hneg : i < 0) (hbound : 0 ≤ i + hosts.length)
    (hget : hosts.get? (i + hosts.length).toNat = some h) :
    match_one_pattern_sub pat hosts (some (i, none)) = Except.ok [h]
    ∧ _split_subscript "db[-1]" = ("db", some (-1, none))
    ∧ _split_subscript "db[7]" = ("db", some (7, none))
    ∧ _split_subscript "db[1:3]" = ("db", some (1, some 3))
    ∧ _split_subscript "db[1:]" = ("db", some (1, some (-1)))
    ∧ _split_subscript "db[1-3]" = ("db", some (1, some 3)) := by
  refine ⟨?_, rfl, rfl, rfl, rfl, rfl⟩
  have hne : hosts ≠ [] := by
    intro he
    rw [he] at hget
    simp at hget
  simp only [match_one_pattern_sub, _apply_subscript, pyIndex, if_neg hne,
    if_neg (show ¬ (0 : Int) ≤ i by omega), if_pos hbound, hget]

/-- Witness for the amended C6 at a concrete inventory: `db[-2]` over three
matched hosts selects the middle one. -/
theorem c6_amended_negative_single_index_witness :
    ((-2 : Int) < 0 ∧ ["db1", "db2", "db3"].get? ((-2 : Int) + 3).toNat = some "db2")
    ∧ match_one_pattern_sub "db[-2]" ["db1", "db2", "db3"] (some (-2, none))
        = Except.ok ["db2"] :=
  ⟨⟨by decide, by decide⟩,
   (c6_amended_negative_single_index "db[-2]" ["db1", "db2", "db3"] (-2) "db2"
     (by decide) (by decide) (by decide)).1⟩

/-- C7 counterexample: the range subscript `db[5:7]` parses, and applying it
to a 3-element matched host list does not raise the fatal error — Python
slice clamping yields `Except.ok []` instead. -/
theorem c7_counterexample :
    _split_subscript "db[5:7]" = ("db", some (5, some 7))
    ∧ match_one_pattern_sub "db[5:7]" ["db1", "db2", "db3"] (some (5, some 7))
        = Except.ok [] :=
  ⟨rfl, rfl⟩

/-- C7 (amended): only a single index can fall "outside" the matched list
and raise the fatal "no hosts matched the subscripted pattern" error; a
range subscript never errors — out-of-range ranges are clamped by Python
slice semantics (possibly to the empty list).  An in-range single index
selects one element, an in-range `x:y` range is an inclusive slice,
`end = -1` means "to the last element", `end = 0` degenerates to the
single-index behaviour, and a subscript over an empty match list returns
the empty list without error. -/
theorem c7_amended_subscript_errors (pat : String) (hosts : List String) :
    (∀ i : Int, hosts ≠ [] → ((hosts.length : Int) ≤ i ∨ i + hosts.length < 0) →
      match_one_pattern_sub pat hosts (some (i, none)) =
        Except.error ("No hosts matched the subscripted pattern '" ++ pat ++ "'"))
    ∧ (∀ (i : Int) (h : String), 0 ≤ i → hosts.get? i.toNat = some h →
      match_one_pattern_sub pat hosts (some (i, none)) = Except.ok [h])
    ∧ (∀ s : Int, 0 ≤ s →
      match_one_pattern_sub pat hosts (some (s, some (-1))) =
        Except.ok (hosts.drop s.toNat))
    ∧ (∀ s e : Int, 0 ≤ s → s ≤ e → 0 < e → e < hosts.length →
      match_one_pattern_sub pat hosts (some (s, some e)) =
        Except.ok ((hosts.drop s.toNat).take (e + 1 - s).toNat))
    ∧ (∀ s e : Int, e ≠ 0 → ∃ r,
      match_one_pattern_sub pat hosts (some (s, some e)) = Except.ok r)
    ∧ (∀ s : Int, match_one_pattern_sub pat hosts (some (s, some 0)) =
        match_one_pattern_sub pat hosts (some (s, none)))
    ∧ (∀ sub, match_one_pattern_sub pat [] sub = Except.ok []) := by
  refine ⟨?_, ?_, ?_, ?_, ?_, ?_, ?_⟩
  · intro i hne hout
    have hidx : pyIndex hosts i = none := by
      rcases hout with hout | hout
      · rw [pyIndex, if_pos (by omega)]
        exact List.get?_eq_none.mpr (by omega)
      · rw [pyIndex, if_neg (by omega), if_neg (by omega)]
    simp only [match_one_pattern_sub, _apply_subscript, if_neg hne, hidx]
  · intro i h hnn hget
    have hne : hosts ≠ [] := by
      intro he
      rw [he] at hget
      simp at hget
    have hidx : pyIndex hosts i = some h := by
      rw [pyIndex, if_pos hnn]
      exact hget
    simp only [match_one_pattern_sub, _apply_subscript, if_neg hne, hidx]
  · intro s hs
    by_cases hne : hosts = []
    · subst hne
      simp [match_one_pattern_sub, _apply_subscript]
    · have hslice : pySlice hosts s ((hosts.length : Int) - 1 + 1) =
          hosts.drop s.toNat := by
        have hb : pyBound hosts.length ((hosts.length : Int) - 1 + 1) =
            (hosts.length : Int) := by
          rw [pyBound, if_neg (by omega)]
          omega
        rw [pySlice, hb, pyBound, if_neg (by omega)]
        by_cases hsn : s ≤ (hosts.length : Int)
        · rw [min_eq_left hsn]
          refine List.take_of_length_le ?_
          rw [List.length_drop]
          omega
        · rw [min_eq_right (le_of_not_le hsn)]
          rw [Int.toNat_ofNat, List.drop_length]
          rw [List.drop_eq_nil_of_le (by omega)]
          simp
      have hred : match_one_pattern_sub pat hosts (some (s, some (-1))) =
          Except.ok (pySlice hosts s ((hosts.length : Int) - 1 + 1)) := by
        simp [match_one_pattern_sub, _apply_subscript, if_neg hne]
      rw [hred, hslice]
  · intro s e hs hse he hlen
    have hne : hosts ≠ [] := by
      intro h
      rw [h] at hlen
      simp at hlen
      omega
    have hslice : pySlice hosts s (e + 1) =
        (hosts.drop s.toNat).take (e + 1 - s).toNat := by
      rw [pySlice, pyBound, if_neg (by omega), pyBound, if_neg (by omega),
        min_eq_left (by omega), min_eq_left (by omega)]
    simp only [match_one_pattern_sub, _apply_subscript, if_neg hne,
      if_pos (show e ≠ 0 by omega), if_neg (show ¬ e = -1 by omega), hslice]
  · intro s e he
    by_cases hne : hosts = []
    · subst hne
      exact ⟨[], rfl⟩
    · refine ⟨pySlice hosts s ((if e = -1 then (hosts.length : Int) - 1 else e) + 1), ?_⟩
      simp only [match_one_pattern_sub, _apply_subscript, if_neg hne, if_pos he]
  · intro s
    by_cases hne : hosts = []
    · subst hne
      rfl
    · simp [match_one_pattern_sub, _apply_subscript, if_neg hne]
  · intro sub
    rcases sub with _ | ⟨s, e⟩
    · rfl
    · rfl

/-- Witness for the amended C7: over the matched list `[db1, db2, db3, db4]`
the single index 7 is fatal, index 2 selects `db3`, the range `1:-1` (end
`-1` via `db[1:]`) selects to the end, and the inclusive range `1:2`
selects `[db2, db3]`. -/
theorem c7_amended_subscript_errors_witness :
    match_one_pattern_sub "db[7]" ["db1", "db2", "db3", "db4"] (some (7, none))
      = Except.error "No hosts matched the subscripted pattern 'db[7]'"
    ∧ match_one_pattern_sub "db[2]" ["db1", "db2", "db3", "db4"] (some (2, none))
      = Except.ok ["db3"]
    ∧ match_one_pattern_sub "db[1:]" ["db1", "db2", "db3", "db4"] (some (1, some (-1)))
      = Except.ok ["db2", "db3", "db4"]
    ∧ match_one_pattern_sub "db[1:2]" ["db1", "db2", "db3", "db4"] (some (1, some 2))
      = Except.ok ["db2", "db3"] :=
  ⟨(c7_amended_subscript_errors "db[7]" ["db1", "db2", "db3", "db4"]).1 7
      (by decide) (by decide),
   (c7_amended_subscript_errors "db[2]" ["db1", "db2", "db3", "db4"]).2.1 2 "db3"
      (by decide) (by decide),
   (c7_amended_subscript_errors "db[1:]" ["db1", "db2", "db3", "db4"]).2.2.1 1
      (by decide),
   (c7_amended_subscript_errors "db[1:2]" ["db1", "db2", "db3", "db4"]).2.2.2.1 1 2
      (by decide) (by decide) (by decide) (by decide)⟩

/-- One element of a loop's `results` list (task_result.py): a dict whose
reserved keys carry booleans, or a non-dict value (some squashed results,
e.g. yum, are not dicts); a non-dict item carries no keys. -/
inductive RItem
  | dict (entries : List (String × Bool))
  | nondict
deriving DecidableEq

/-- `isinstance(res, dict)` on a loop item. -/
def RItem.isDict : RItem → Bool
  | .dict _ => true
  | .nondict => false

/-- `res.get(key, False)` on a loop item. -/
def RItem.getKey : RItem → String → Bool
  | .dict d, k => (lookupA d k).getD false
  | .nondict, _ => false

/-- `key in res` on a loop item. -/
def RItem.hasKey : RItem → String → Bool
  | .dict d, k => (lookupA d k).isSome
  | .nondict, _ => false

/-- The `self._result` dict of a `TaskResult`, restricted to the parts the
inspection methods read: the reserved boolean-valued top-level keys
(`entries`) and the `results` list when that key is present. -/
structure TResult where
  entries : List (String × Bool)
  results : Option (List RItem)

/-- `key in self._result` for a reserved boolean key. -/
def hasTopKey (r : TResult) (k : String) : Bool :=
  (lookupA r.entries k).isSome

/-- `self._result.get(key, False)` for a reserved boolean key. -/
def getTop (r : TResult) (k : String) : Bool :=
  (lookupA r.entries k).getD false

/-- Embedding of `TaskResult._check_key` (task_result.py lines 81-91): a
top-level key wins outright; otherwise the flag is or-ed over the dict
items of `results` (defaulting to an empty list). -/
def _check_key (r : TResult) (k : String) : Bool :=
  if hasTopKey r k then getTop r k
  else (r.results.getD []).foldl (fun flag res => flag || res.getKey k) false

/-- Embedding of `TaskResult.is_skipped` (task_result.py lines 59-69):
with a `results` key, true when the list is non-empty and every item is a
dict with `skipped` true; otherwise the top-level `skipped` key decides
(default false). -/
def is_skipped (r : TResult) : Bool :=
  match r.results with
  | some results =>
    if !results.isEmpty && results.all (fun res => res.isDict && res.getKey "skipped") then
      true
    else getTop r "skipped"
  | none => getTop r "skipped"

/-- Embedding of `TaskResult.is_failed` (task_result.py lines 71-76): if
`failed_when_result` appears at top level or in any item, that key is
checked, else `failed`. -/
def is_failed (r : TResult) : Bool :=
  if hasTopKey r "failed_when_result"
      || (r.results.isSome
          && (r.results.getD []).any (fun x => x.hasKey "failed_when_result")) then
    _check_key r "failed_when_result"
  else
    _check_key r "failed"

/-- Embedding of `TaskResult.is_changed` (task_result.py lines 56-57). -/
def is_changed (r : TResult) : Bool :=
  _check_key r "changed"

/-- Embedding of `TaskResult.is_unreachable` (task_result.py lines 78-79). -/
def is_unreachable (r : TResult) : Bool :=
  _check_key r "unreachable"

theorem getTop_of_not_hasTopKey (r : TResult) (k : String)
    (h : hasTopKey r k = false) : getTop r k = false := by
  unfold hasTopKey at h
  unfold getTop
  cases hl : lookupA r.entries k with
  | none => rfl
  | some v => rw [hl] at h; simp at h

theorem all_dict_and (k : String) (l : List RItem)
    (hdict : l.all RItem.isDict = true) :
    l.all (fun res => res.isDict && res.getKey k) = l.all (fun res => res.getKey k) := by
  induction l with
  | nil => rfl
  | cons x xs ih =>
    simp only [List.all_cons, Bool.and_eq_true] at hdict ⊢
    rw [hdict.1, ih hdict.2]
    simp

theorem foldl_or_eq_any (k : String) (l : List RItem) : ∀ b : Bool,
    l.foldl (fun flag res => flag || res.getKey k) b
      = (b || l.any (fun res => res.getKey k)) := by
  induction l with
  | nil => intro b; simp
  | cons x xs ih =>
    intro b
    simp only [List.foldl_cons, List.any_cons, ih]
    cases b <;> cases hx : x.getKey k <;> simp

theorem any_eq_false_of_all_not (p : RItem → Bool) (l : List RItem)
    (h : l.all (fun x => !p x) = true) : l.any p = false := by
  induction l with
  | nil => rfl
  | cons x xs ih =>
    simp only [List.all_cons, Bool.and_eq_true] at h
    simp only [List.any_cons, Bool.or_eq_false_iff]
    exact ⟨by cases hp : p x <;> simp [hp] at h ⊢, ih h.2⟩

/-- A looped result whose top-level dict also carries `skipped: True` while
one of its items is not skipped. -/
def exC9 : TResult :=
  ⟨[("skipped", true)], some [RItem.dict [("skipped", false)]]⟩

/-- C9 counterexample: for a looped TaskResult with a non-empty `results`
list of dict items, `is_skipped` can return true although not every
sub-item is skipped — the fallthrough `self._result.get('skipped', False)`
consults the top-level key, so the claimed "if and only if" fails. -/
theorem c9_counterexample :
    is_skipped exC9 = true
    ∧ (exC9.results.getD []).all (fun res => res.getKey "skipped") = false := by
  exact ⟨rfl, rfl⟩

/-- C9 (amended): for a looped TaskResult with a non-empty `results` list
of dict items, `is_skipped` is true iff every sub-item is skipped or the
top-level `skipped` key is true; in particular, when the top-level dict has
no `skipped` key (the shape the loop executor produces when items differ),
it is true iff every sub-item is skipped. -/
theorem c9_amended_skipped_aggregation (r : TResult) (results : List RItem)
    (hres : r.results = some results) (hne : results ≠ [])
    (hdict : results.all RItem.isDict = true) :
    (is_skipped r = true ↔
      (results.all (fun res => res.getKey "skipped") = true
        ∨ getTop r "skipped" = true))
    ∧ (hasTopKey r "skipped" = false →
      (is_skipped r = true ↔ results.all (fun res => res.getKey "skipped") = true)) := by
  have hform : is_skipped r =
      (if (!results.isEmpty
            && results.all fun res => res.isDict && res.getKey "skipped") = true
       then true else getTop r "skipped") := by
    unfold is_skipped
    rw [hres]
  have hmain : is_skipped r = true ↔
      (results.all (fun res => res.getKey "skipped") = true
        ∨ getTop r "skipped" = true) := by
    rw [hform, all_dict_and "skipped" results hdict]
    have hempty : results.isEmpty = false := by
      cases results with
      | nil => exact absurd rfl hne
      | cons a l => rfl
    rw [hempty]
    cases hall : results.all (fun res => res.getKey "skipped") <;> simp
  refine ⟨hmain, fun htop => ?_⟩
  rw [hmain, getTop_of_not_hasTopKey r "skipped" htop]
  simp

/-- Witness for the amended C9: two items, one skipped and one not, no
top-level `skipped` key: the looped result is not skipped; and with both
items skipped it is. -/
theorem c9_amended_skipped_aggregation_witness :
    (some [RItem.dict [("skipped", true)], RItem.dict [("skipped", false)]] =
      some [RItem.dict [("skipped", true)], RItem.dict [("skipped", false)]]
      ∧ ([RItem.dict [("skipped", true)], RItem.dict [("skipped", false)]] : List RItem) ≠ []
      ∧ ([RItem.dict [("skipped", true)], RItem.dict [("skipped", false)]] : List RItem).all
          RItem.isDict = true)
    ∧ (is_skipped ⟨[], some [RItem.dict [("skipped", true)], RItem.dict [("skipped", false)]]⟩ = true
        ↔ (([RItem.dict [("skipped", true)], RItem.dict [("skipped", false)]] : List RItem).all
            (fun res => res.getKey "skipped") = true)) :=
  ⟨⟨rfl, by decide, by decide⟩,
   (c9_amended_skipped_aggregation
      ⟨[], some [RItem.dict [("skipped", true)], RItem.dict [("skipped", false)]]⟩
      [RItem.dict [("skipped", true)], RItem.dict [("skipped", false)]]
      rfl (by decide) (by decide)).2 (by decide)⟩

/-- A result whose top-level `failed` key is False while an item carries
`failed_when_result: True`. -/
def exC10 : TResult :=
  ⟨[("failed", false)], some [RItem.dict [("failed_when_result", true)]]⟩

/-- C10 counterexample: the top-level `failed` key does not get absolute
precedence in `is_failed` — with `failed: False` at top level but a
`failed_when_result: True` item, `is_failed` switches to the
`failed_when_result` key and returns true. -/
theorem c10_counterexample :
    hasTopKey exC10 "failed" = true
    ∧ getTop exC10 "failed" = false
    ∧ is_failed exC10 = true := by
  exact ⟨rfl, rfl, rfl⟩

/-- C10 (amended): inside `_check_key` a present top-level key decides alone
(the `results` items are ignored entirely), and only an absent top-level key
makes the items aggregate by logical or; `is_changed` and `is_unreachable`
inherit this precedence unconditionally, while `is_failed` gives the
top-level `failed` key that precedence only when `failed_when_result`
appears neither at top level nor in any item (otherwise that key is
consulted instead). -/
theorem c10_amended_check_key_precedence (r : TResult) (k : String) :
    (hasTopKey r k = true → ∀ items : Option (List RItem),
      _check_key { r with results := items } k = getTop r k)
    ∧ (hasTopKey r k = false →
      _check_key r k = (r.results.getD []).any (fun res => res.getKey k))
    ∧ (hasTopKey r "changed" = true → ∀ items : Option (List RItem),
      is_changed { r with results := items } = getTop r "changed")
    ∧ (hasTopKey r "unreachable" = true → ∀ items : Option (List RItem),
      is_unreachable { r with results := items } = getTop r "unreachable")
    ∧ (hasTopKey r "failed" = true → hasTopKey r "failed_when_result" = false →
      (r.results.getD []).all (fun res => !(res.hasKey "failed_when_result")) = true →
      is_failed r = getTop r "failed") := by
  have htopkey : ∀ (k' : String) (items : Option (List RItem)),
      hasTopKey { r with results := items } k' = hasTopKey r k' := by
    intro k' items
    rfl
  have hgettop : ∀ (k' : String) (items : Option (List RItem)),
      getTop { r with results := items } k' = getTop r k' := by
    intro k' items
    rfl
  have h1 : ∀ (k' : String), hasTopKey r k' = true → ∀ items : Option (List RItem),
      _check_key { r with results := items } k' = getTop r k' := by
    intro k' hk items
    unfold _check_key
    rw [htopkey, hgettop, if_pos hk]
  refine ⟨h1 k, ?_, ?_, ?_, ?_⟩
  · intro hk
    unfold _check_key
    rw [if_neg (by rw [hk]; exact Bool.false_ne_true)]
    exact foldl_or_eq_any k (r.results.getD []) false
  · intro hk items
    unfold is_changed
    exact h1 "changed" hk items
  · intro hk items
    unfold is_unreachable
    exact h1 "unreachable" hk items
  · intro hk hfwr hitems
    unfold is_failed
    have hany : (r.results.getD []).any (fun x => x.hasKey "failed_when_result") = false :=
      any_eq_false_of_all_not _ _ hitems
    rw [hfwr, hany]
    simp only [Bool.false_or, Bool.and_false, Bool.false_eq_true, if_false]
    unfold _check_key
    rw [if_pos hk]

/-- Witness for the amended C10: a top-level `changed: True` beats items all
saying `changed: False`; an absent top-level `unreachable` key aggregates
items by or. -/
theorem c10_amended_check_key_precedence_witness :
    (hasTopKey ⟨[("changed", true)], none⟩ "changed" = true)
    ∧ _check_key ⟨[("changed", true)], some [RItem.dict [("changed", false)]]⟩ "changed"
        = getTop ⟨[("changed", true)], none⟩ "changed"
    ∧ _check_key ⟨[("changed", true)], none⟩ "unreachable"
        = (((⟨[("changed", true)], none⟩ : TResult).results.getD []).any
            (fun res => res.getKey "unreachable")) :=
  ⟨rfl,
   (c10_amended_check_key_precedence ⟨[("changed", true)], none⟩ "changed").1
     rfl (some [RItem.dict [("changed", false)]]),
   (c10_amended_check_key_precedence ⟨[("changed", true)], none⟩ "unreachable").2.1 rfl⟩

/-- Modelled from the spec: `PlayIterator.mark_host_failed` (the play
iterator module is absent from the sources) "transitions a host toward
RESCUE if available, else to a failed-COMPLETE"; here only the resulting
set of failed-marked host names is tracked, as an ordered duplicate-free
list. -/
def mark_host_failed (failed : List String) (h : String) : List String :=
  if h ∈ failed then failed else failed ++ [h]

/-- The per-play state the failure branch of the strategy manipulates:
the hosts the iterator has marked failed, and the name set
`_tqm._unreachable_hosts`. -/
structure RunState where
  iterFailed : List String
  unreachable : List String

/-- Embedding of the failure branch of
`StrategyBase._process_pending_results` (strategy/__init__.py lines
414-447): when a failed result arrives and `ignore_errors` is not set, a
`run_once` task marks every resolved play host not already unreachable as
failed (lines 419-425), otherwise only the reporting host is marked
(line 427); with `ignore_errors` set no host is marked. -/
def handle_failed_result (playHosts : List String) (run_once ignore_errors : Bool)
    (reporting : String) (st : RunState) : RunState :=
  if !ignore_errors then
    if run_once then
      { st with iterFailed :=
          (playHosts.foldl
            (fun acc h => if h ∈ st.unreachable then acc else mark_host_failed acc h)
            st.iterFailed) }
    else
      { st with iterFailed := mark_host_failed st.iterFailed reporting }
  else st

theorem mem_mark_host_failed (failed : List String) (h x : String) :
    x ∈ mark_host_failed failed h ↔ x ∈ failed ∨ x = h := by
  unfold mark_host_failed
  by_cases hm : h ∈ failed
  · rw [if_pos hm]
    constructor
    · exact Or.inl
    · rintro (hx | rfl)
      · exact hx
      · exact hm
  · rw [if_neg hm]
    simp [List.mem_append]

theorem mem_foldl_mark (u : List String) (l : List String) :
    ∀ (acc : List String) (x : String),
    x ∈ l.foldl (fun acc h => if h ∈ u then acc else mark_host_failed acc h) acc ↔
      x ∈ acc ∨ (x ∈ l ∧ x ∉ u) := by
  induction l with
  | nil => intro acc x; simp
  | cons h t ih =>
    intro acc x
    rw [List.foldl_cons]
    by_cases hu : h ∈ u
    · rw [if_pos hu, ih]
      constructor
      · rintro (hx | hx)
        · exact Or.inl hx
        · exact Or.inr ⟨List.mem_cons_of_mem h hx.1, hx.2⟩
      · rintro (hx | ⟨hmem, hnu⟩)
        · exact Or.inl hx
        · rcases List.mem_cons.mp hmem with rfl | hx
          · exact absurd hu hnu
          · exact Or.inr ⟨hx, hnu⟩
    · rw [if_neg hu, ih]
      rw [mem_mark_host_failed]
      constructor
      · rintro ((hx | rfl) | hx)
        · exact Or.inl hx
        · exact Or.inr ⟨List.mem_cons_self x t, hu⟩
        · exact Or.inr ⟨List.mem_cons_of_mem h hx.1, hx.2⟩
      · rintro (hx | ⟨hmem, hnu⟩)
        · exact Or.inl (Or.inl hx)
        · rcases List.mem_cons.mp hmem with rfl | hx
          · exact Or.inl (Or.inr rfl)
          · exact Or.inr ⟨hx, hnu⟩

/-- C2: on a failed result without `ignore_errors`, a `run_once` task marks
exactly the play hosts that are not already unreachable (together with any
previously failed hosts) as failed; a non-`run_once` task marks only the
reporting host; and with `ignore_errors` set nothing is marked. -/
theorem c2_run_once_failure_broadcast (playHosts : List String)
    (reporting : String) (st : RunState) (hst : st.iterFailed = []) :
    (∀ h ∈ playHosts, h ∉ st.unreachable →
      h ∈ (handle_failed_result playHosts true false reporting st).iterFailed)
    ∧ (∀ x, x ∈ (handle_failed_result playHosts true false reporting st).iterFailed ↔
        x ∈ playHosts ∧ x ∉ st.unreachable)
    ∧ (∀ x, x ∈ (handle_failed_result playHosts false false reporting st).iterFailed ↔
        x = reporting)
    ∧ (∀ run_once : Bool,
        handle_failed_result playHosts run_once true reporting st = st) := by
  have hro : (handle_failed_result playHosts true false reporting st).iterFailed =
      playHosts.foldl
        (fun acc h => if h ∈ st.unreachable then acc else mark_host_failed acc h)
        st.iterFailed := rfl
  refine ⟨?_, ?_, ?_, ?_⟩
  · intro h hmem hnu
    rw [hro, mem_foldl_mark]
    exact Or.inr ⟨hmem, hnu⟩
  · intro x
    rw [hro, mem_foldl_mark, hst]
    simp
  · intro x
    have : (handle_failed_result playHosts false false reporting st).iterFailed =
        mark_host_failed st.iterFailed reporting := rfl
    rw [this, mem_mark_host_failed, hst]
    simp
  · intro run_once
    rfl

/-- Witness for C2: three play hosts of which one is already unreachable;
the `run_once` failure marks the two reachable ones, the plain failure
marks only the reporter. -/
theorem c2_run_once_failure_broadcast_witness :
    (( ⟨[], ["h2"]⟩ : RunState).iterFailed = [])
    ∧ ((∀ h ∈ ["h1", "h2", "h3"], h ∉ (⟨[], ["h2"]⟩ : RunState).unreachable →
        h ∈ (handle_failed_result ["h1", "h2", "h3"] true false "h1"
              ⟨[], ["h2"]⟩).iterFailed)
      ∧ (∀ x, x ∈ (handle_failed_result ["h1", "h2", "h3"] true false "h1"
              ⟨[], ["h2"]⟩).iterFailed ↔
          x ∈ ["h1", "h2", "h3"] ∧ x ∉ (⟨[], ["h2"]⟩ : RunState).unreachable)
      ∧ (∀ x, x ∈ (handle_failed_result ["h1", "h2", "h3"] false false "h1"
              ⟨[], ["h2"]⟩).iterFailed ↔ x = "h1")
      ∧ (∀ run_once : Bool,
          handle_failed_result ["h1", "h2", "h3"] run_once true "h1"
            ⟨[], ["h2"]⟩ = ⟨[], ["h2"]⟩)) :=
  ⟨rfl, c2_run_once_failure_broadcast ["h1", "h2", "h3"] "h1" ⟨[], ["h2"]⟩ rfl⟩

/-- Modelled from the spec: `TaskQueueManager.RUN_OK` — the task queue
manager class is absent from the sources; the spec's exit statuses are
{OK, FAILED_HOSTS, UNREACHABLE_HOSTS, RUN_ERROR}, composed bitwise. -/
def RUN_OK : Nat := 0

/-- Modelled from the spec: `TaskQueueManager.RUN_ERROR` (see `RUN_OK`). -/
def RUN_ERROR : Nat := 1

/-- Modelled from the spec: `TaskQueueManager.RUN_FAILED_HOSTS` (see
`RUN_OK`). -/
def RUN_FAILED_HOSTS : Nat := 2

/-- Modelled from the spec: `TaskQueueManager.RUN_UNREACHABLE_HOSTS` (see
`RUN_OK`). -/
def RUN_UNREACHABLE_HOSTS : Nat := 4

/-- The value `run_handlers` hands back to `StrategyBase.run`: a bool
(`_do_handler_run` outcomes) or an int status code. -/
inductive HandlerRunResult
  | b (v : Bool)
  | code (n : Nat)
deriving DecidableEq

/-- Embedding of the exit-status computation of `StrategyBase.run`
(strategy/__init__.py lines 164-196): `failedHosts`/`unreachHosts` are the
final failed and unreachable host-name sets (the unions of lines 173-174
and 185-186), `hr` the `run_handlers` value, `result` the status passed in
by the concrete strategy.  A bool `False` handler result ors `RUN_ERROR`
into the status; an int handler result is or-ed in only when it is zero
(the `elif not handler_result` branch).  A non-`RUN_OK` status is returned
as-is; otherwise unreachable hosts dominate failed hosts. -/
def run_merged_status (hr : HandlerRunResult) (result : Nat) : Nat :=
  match hr with
  | .b v => if !v then result ||| RUN_ERROR else result
  | .code n => if n = 0 then result ||| n else result

/-- The final status dispatch of `StrategyBase.run` (strategy/__init__.py
lines 188-196). -/
def strategy_run_exit (failedHosts unreachHosts : List String)
    (hr : HandlerRunResult) (result : Nat) : Nat :=
  if run_merged_status hr result ≠ RUN_OK then run_merged_status hr result
  else if unreachHosts.length > 0 then RUN_UNREACHABLE_HOSTS
  else if failedHosts.length > 0 then RUN_FAILED_HOSTS
  else RUN_OK

/-- C3 counterexample: a run whose handler phase fails (`run_handlers`
returned `False`) while a host is unreachable exits with `RUN_ERROR`, not
`RUN_UNREACHABLE_HOSTS` — the claimed unreachable > failed > ok precedence
is preempted by the error status. -/
theorem c3_counterexample :
    strategy_run_exit [] ["h1"] (HandlerRunResult.b false) RUN_OK = RUN_ERROR
    ∧ RUN_ERROR ≠ RUN_UNREACHABLE_HOSTS := by
  exact ⟨rfl, by decide⟩

/-- C3 (amended): provided the strategy passed in `RUN_OK` and the handler
phase did not fail (otherwise the accumulated error status is returned
first), the exit status follows the worst host outcome with precedence
unreachable > failed > ok. -/
theorem c3_amended_exit_status (failedHosts unreachHosts : List String)
    (hr : HandlerRunResult) (hok : hr ≠ HandlerRunResult.b false) :
    (unreachHosts ≠ [] →
      strategy_run_exit failedHosts unreachHosts hr RUN_OK = RUN_UNREACHABLE_HOSTS)
    ∧ (unreachHosts = [] → failedHosts ≠ [] →
      strategy_run_exit failedHosts unreachHosts hr RUN_OK = RUN_FAILED_HOSTS)
    ∧ (unreachHosts = [] → failedHosts = [] →
      strategy_run_exit failedHosts unreachHosts hr RUN_OK = RUN_OK) := by
  have hmerged : run_merged_status hr RUN_OK = RUN_OK := by
    cases hr with
    | b v =>
      cases v with
      | false => exact absurd rfl hok
      | true => rfl
    | code n =>
      by_cases hn : n = 0
      · subst hn; rfl
      · show (if n = 0 then RUN_OK ||| n else RUN_OK) = RUN_OK
        rw [if_neg hn]
  refine ⟨?_, ?_, ?_⟩
  · intro hu
    unfold strategy_run_exit
    rw [hmerged, if_neg (by simp [RUN_OK]), if_pos (List.length_pos.mpr hu)]
  · intro hu hf
    subst hu
    unfold strategy_run_exit
    rw [hmerged, if_neg (by simp [RUN_OK])]
    simp only [List.length_nil, gt_iff_lt, lt_self_iff_false, if_false]
    rw [if_pos (List.length_pos.mpr hf)]
  · intro hu hf
    subst hu
    subst hf
    unfold strategy_run_exit
    rw [hmerged, if_neg (by simp [RUN_OK])]
    rfl

/-- Witness for the amended C3: handlers succeeded; one unreachable host
dominates a failed host, a failed host alone gives `RUN_FAILED_HOSTS`, and
no bad host gives `RUN_OK`. -/
theorem c3_amended_exit_status_witness :
    (HandlerRunResult.b true ≠ HandlerRunResult.b false)
    ∧ strategy_run_exit ["h2"] ["h1"] (HandlerRunResult.b true) RUN_OK
        = RUN_UNREACHABLE_HOSTS
    ∧ strategy_run_exit ["h2"] [] (HandlerRunResult.b true) RUN_OK = RUN_FAILED_HOSTS
    ∧ strategy_run_exit [] [] (HandlerRunResult.b true) RUN_OK = RUN_OK :=
  ⟨by decide,
   (c3_amended_exit_status ["h2"] ["h1"] (HandlerRunResult.b true) (by decide)).1
     (by decide),
   (c3_amended_exit_status ["h2"] [] (HandlerRunResult.b true) (by decide)).2.1 rfl
     (by decide),
   (c3_amended_exit_status [] [] (HandlerRunResult.b true) (by decide)).2.2 rfl rfl⟩

/-- Python dict assignment `d[k] = v` on the Notification Ledger
(`self._notified_handlers`): replace the entry if the key exists, else add
it at the end (dict insertion order). -/
def set_entry : List (String × List String) → String → List String →
    List (String × List String)
  | [], k, v => [(k, v)]
  | (k₁, v₁) :: rest, k, v =>
    if k₁ = k then (k, v) :: rest else (k₁, v₁) :: set_entry rest k v

/-- One handler-notification append of `_process_pending_results`
(strategy/__init__.py lines 487-513): create the handler's ledger entry if
missing, then append the notifying host only if it is not already present
(`if original_host not in self._notified_handlers[...]`). -/
def notify_handler (ledger : List (String × List String)) (uuid host : String) :
    List (String × List String) :=
  if host ∈ (lookupA ledger uuid).getD [] then ledger
  else set_entry ledger uuid ((lookupA ledger uuid).getD [] ++ [host])

/-- The ledger wipe at the end of `_do_handler_run` (strategy/__init__.py
line 862): `self._notified_handlers[handler._uuid] = []`. -/
def flush_handler_entry (ledger : List (String × List String)) (uuid : String) :
    List (String × List String) :=
  set_entry ledger uuid []

/-- Every ledger entry is duplicate-free. -/
def LedgerNodup (ledger : List (String × List String)) : Prop :=
  ∀ k v, lookupA ledger k = some v → v.Nodup

/-- The dispatch loop of `_do_handler_run` (strategy/__init__.py lines
810-817) over the notified hosts, returning the hosts actually queued.
`triggered` abstracts `handler.has_triggered` and `failedHosts` abstracts
`iterator.is_failed` (both live outside the sources; per the spec a handler
"executes at most once per host per flush" via the `has_triggered` guard):
a host is queued unless the handler already triggered for it or it is
failed without `force_handlers`; after queueing one host a `run_once`
handler stops the loop. -/
def handler_queue_hosts (triggered failedHosts : List String)
    (force_handlers run_once : Bool) : List String → List String
  | [] => []
  | h :: rest =>
    if h ∉ triggered ∧ (h ∉ failedHosts ∨ force_handlers = true) then
      h :: (if run_once then []
            else handler_queue_hosts triggered failedHosts force_handlers run_once rest)
    else handler_queue_hosts triggered failedHosts force_handlers run_once rest

theorem lookupA_set_entry_self (l : List (String × List String)) (k : String)
    (v : List String) : lookupA (set_entry l k v) k = some v := by
  induction l with
  | nil => simp [set_entry, lookupA]
  | cons e rest ih =>
    obtain ⟨k₁, v₁⟩ := e
    by_cases h : k₁ = k
    · rw [set_entry, if_pos h]
      simp [lookupA]
    · rw [set_entry, if_neg h]
      rw [lookupA, if_neg h]
      exact ih


theorem lookupA_set_entry_other (l : List (String × List String)) (k k' : String)
    (v : List String) (hne : k ≠ k') :
    lookupA (set_entry l k v) k' = lookupA l k' := by
  induction l with
  | nil => simp [set_entry, lookupA, hne]
  | cons e rest ih =>
    obtain ⟨k₁, v₁⟩ := e
    by_cases h : k₁ = k
    · rw [set_entry, if_pos h]
      rw [lookupA, lookupA, if_neg hne, if_neg (show ¬k₁ = k' by rw [h]; exact hne)]
    · rw [set_entry, if_neg h]
      rw [lookupA, lookupA]
      by_cases h' : k₁ = k'
      · rw [if_pos h', if_pos h']
      · rw [if_neg h', if_neg h']
        exact ih

theorem ledger_nodup_set_entry (l : List (String × List String)) (k : String)
    (v : List String) (hl : LedgerNodup l) (hv : v.Nodup) :
    LedgerNodup (set_entry l k v) := by
  intro k' v' h
  by_cases hk : k = k'
  · subst hk
    rw [lookupA_set_entry_self] at h
    injection h with h
    rw [← h]
    exact hv
  · rw [lookupA_set_entry_other l k k' v hk] at h
    exact hl k' v' h

theorem notify_handler_nodup (ledger : List (String × List String))
    (uuid host : String) (h : LedgerNodup ledger) :
    LedgerNodup (notify_handler ledger uuid host) := by
  unfold notify_handler
  by_cases hmem : host ∈ (lookupA ledger uuid).getD []
  · rw [if_pos hmem]
    exact h
  · rw [if_neg hmem]
    refine ledger_nodup_set_entry ledger uuid _ h ?_
    have hcur : ((lookupA ledger uuid).getD []).Nodup := by
      cases hl : lookupA ledger uuid with
      | none => simp
      | some w =>
        have := h uuid w hl
        simpa using this
    rw [List.nodup_append]
    refine ⟨hcur, List.nodup_singleton host, ?_⟩
    intro x hx hx'
    rw [List.mem_singleton] at hx'
    subst hx'
    exact hmem hx

theorem handler_queue_subset (triggered failedHosts : List String)
    (force_handlers run_once : Bool) (l : List String) (x : String) :
    x ∈ handler_queue_hosts triggered failedHosts force_handlers run_once l → x ∈ l := by
  induction l with
  | nil => intro h; exact absurd h (List.not_mem_nil x)
  | cons h t ih =>
    intro hx
    unfold handler_queue_hosts at hx
    by_cases hc : h ∉ triggered ∧ (h ∉ failedHosts ∨ force_handlers = true)
    · rw [if_pos hc] at hx
      rcases List.mem_cons.mp hx with rfl | hx'
      · exact List.mem_cons_self x t
      · by_cases hro : run_once = true
        · rw [if_pos hro] at hx'
          exact absurd hx' (List.not_mem_nil x)
        · rw [if_neg hro] at hx'
          exact List.mem_cons_of_mem h (ih hx')
    · rw [if_neg hc] at hx
      exact List.mem_cons_of_mem h (ih hx)

theorem handler_queue_triggered_excluded (triggered failedHosts : List String)
    (force_handlers run_once : Bool) (l : List String) (x : String)
    (hx : x ∈ triggered) :
    x ∉ handler_queue_hosts triggered failedHosts force_handlers run_once l := by
  induction l with
  | nil => exact List.not_mem_nil x
  | cons h t ih =>
    unfold handler_queue_hosts
    by_cases hc : h ∉ triggered ∧ (h ∉ failedHosts ∨ force_handlers = true)
    · rw [if_pos hc]
      intro hmem
      rcases List.mem_cons.mp hmem with rfl | hmem'
      · exact hc.1 hx
      · by_cases hro : run_once = true
        · rw [if_pos hro] at hmem'
          exact absurd hmem' (List.not_mem_nil x)
        · rw [if_neg hro] at hmem'
          exact ih hmem'
    · rw [if_neg hc]
      exact ih

theorem handler_queue_count_le_one (triggered failedHosts : List String)
    (force_handlers run_once : Bool) (l : List String) (hnd : l.Nodup) (x : String) :
    (handler_queue_hosts triggered failedHosts force_handlers run_once l).count x ≤ 1 := by
  induction l with
  | nil => simp [handler_queue_hosts]
  | cons h t ih =>
    have hnd' : t.Nodup := hnd.of_cons
    have hht : h ∉ t := by
      intro hmem
      exact (List.nodup_cons.mp hnd).1 hmem
    unfold handler_queue_hosts
    by_cases hc : h ∉ triggered ∧ (h ∉ failedHosts ∨ force_handlers = true)
    · rw [if_pos hc]
      by_cases hro : run_once = true
      · rw [if_pos hro]
        by_cases hxh : x = h
        · subst hxh
          simp
        · simp [List.count_cons, hxh]
      · rw [if_neg hro]
        by_cases hxh : x = h
        · subst hxh
          have hnot : x ∉ handler_queue_hosts triggered failedHosts force_handlers
              run_once t :=
            fun hmem => hht
              (handler_queue_subset triggered failedHosts force_handlers run_once t x hmem)
          rw [List.count_cons_self]
          have hzero : (handler_queue_hosts triggered failedHosts force_handlers
              run_once t).count x = 0 :=
            List.count_eq_zero.mpr hnot
          omega
        · rw [List.count_cons_of_ne hxh]
          exact ih hnd'
    · rw [if_neg hc]
      exact ih hnd'

/-- C4: the Notification Ledger operations preserve its invariants — a
notification append never introduces a duplicate host in a handler's entry
(the membership guard), a host for which the handler has already triggered
is never dispatched and, with a duplicate-free entry, each host is
dispatched at most once per flush, and flushing a handler resets its ledger
entry to the empty list. -/
theorem c4_handler_ledger (ledger : List (String × List String))
    (uuid host : String) (notified triggered failedHosts : List String)
    (force_handlers run_once : Bool)
    (hled : LedgerNodup ledger) (hnotif : notified.Nodup) :
    LedgerNodup (notify_handler ledger uuid host)
    ∧ (∀ x ∈ triggered,
        x ∉ handler_queue_hosts triggered failedHosts force_handlers run_once notified)
    ∧ (∀ x, (handler_queue_hosts triggered failedHosts force_handlers run_once
        notified).count x ≤ 1)
    ∧ lookupA (flush_handler_entry ledger uuid) uuid = some [] := by
  refine ⟨notify_handler_nodup ledger uuid host hled, ?_, ?_, ?_⟩
  · intro x hx
    exact handler_queue_triggered_excluded triggered failedHosts force_handlers
      run_once notified x hx
  · intro x
    exact handler_queue_count_le_one triggered failedHosts force_handlers
      run_once notified hnotif x
  · exact lookupA_set_entry_self ledger uuid []

/-- Witness for C4 at concrete data: a ledger with one handler notified by
`h1`; notifying `h1` again keeps every entry duplicate-free, host `h3` (for
which the handler already triggered) is not dispatched, each host is
dispatched at most once, and the flush clears the entry. -/
theorem c4_handler_ledger_witness :
    (["h1", "h2", "h3"] : List String).Nodup
    ∧ (LedgerNodup (notify_handler [("u1", ["h1"])] "u1" "h1")
      ∧ (∀ x ∈ ["h3"],
          x ∉ handler_queue_hosts ["h3"] ["h2"] false false ["h1", "h2", "h3"])
      ∧ (∀ x, (handler_queue_hosts ["h3"] ["h2"] false false
          ["h1", "h2", "h3"]).count x ≤ 1)
      ∧ lookupA (flush_handler_entry [("u1", ["h1"])] "u1") "u1" = some []) :=
  ⟨by decide,
   c4_handler_ledger [("u1", ["h1"])] "u1" "h1" ["h1", "h2", "h3"] ["h3"] ["h2"]
     false false
     (by
       intro k v h
       by_cases hk : "u1" = k
       · subst hk
         simp only [lookupA, if_pos rfl] at h
         injection h with h
         rw [← h]
         decide
       · simp only [lookupA, if_neg hk] at h
         exact Option.noConfusion h)
     (by decide)⟩

end Ansible
